import Mathlib

/-!
Shallow embedding of `openshift/helper/__init__.py` (class `KubernetesObjectHelper`)
and a verification of the spec's claims about it.

Python values that can appear in the output of a swagger model's `to_dict()` are
modelled by `Value` below; the structured model objects handed to `objects_match`
are modelled by `PyObj`.  Machine-level concerns (HTTP transport, JSON parsing,
logging, real-time sleeping) are modelled as explicit parameters or counters.
-/

namespace OpenShiftHelper

/-- A Python value as produced by a swagger model's `to_dict()`:
`None`, `bool`, `int`, `str`, `list`, or `dict` with string keys
(insertion-ordered, which an association list captures). -/
inductive Value where
  | vnull
  | vbool (b : Bool)
  | vint (n : Int)
  | vstr (s : String)
  | vlist (l : List Value)
  | vdict (d : List (String × Value))

/-- Python truthiness of a `Value` (`not x` in the source tests this). -/
def Value.truthy : Value → Bool
  | .vnull => false
  | .vbool b => b
  | .vint n => n != 0
  | .vstr s => s != ""
  | .vlist l => !l.isEmpty
  | .vdict d => !d.isEmpty

/-- Whether the value is Python `None`. -/
def isNull : Value → Bool
  | .vnull => true
  | _ => false

/-- Whether the value is a Python `dict` (`type(v).__name__ == 'dict'`). -/
def isDictV : Value → Bool
  | .vdict _ => true
  | _ => false

/-- Whether the value is a Python `list` (`type(v).__name__ == 'list'`). -/
def isListV : Value → Bool
  | .vlist _ => true
  | _ => false

/-- First-match lookup of a key in a Python dict modelled as an association
list: `d[k]` / `k in d`. -/
def lookupV (k : String) : List (String × Value) → Option Value
  | [] => none
  | (k2, v) :: rest => if k = k2 then some v else lookupV k rest

theorem sizeOf_lookupV {k : String} {v : Value} :
    ∀ (d : List (String × Value)), lookupV k d = some v → sizeOf v < sizeOf d := by
  intro d
  induction d with
  | nil => intro h; simp [lookupV] at h
  | cons p rest ih =>
    obtain ⟨k2, w⟩ := p
    intro h
    simp only [lookupV] at h
    split at h
    · cases h; simp; omega
    · have := ih h; simp; omega

mutual

/-- Python `==` on `Value`s (CPython semantics restricted to the value grammar
above: `True == 1`, lists compare elementwise in order, dicts compare as
key-value maps; no floats). -/
def pyEq : Value → Value → Bool
  | .vnull, .vnull => true
  | .vbool a, .vbool b => a == b
  | .vbool a, .vint n => (if a then (1 : Int) else 0) == n
  | .vint n, .vbool b => n == (if b then (1 : Int) else 0)
  | .vint a, .vint b => a == b
  | .vstr a, .vstr b => a == b
  | .vlist a, .vlist b => pyEqList a b
  | .vdict a, .vdict b => pyEqDict a b
  | _, _ => false
termination_by a b => sizeOf a + sizeOf b
decreasing_by all_goals simp_wf; all_goals omega

/-- Python `==` on lists: same length, equal elementwise in order. -/
def pyEqList : List Value → List Value → Bool
  | [], [] => true
  | x :: xs, y :: ys => pyEq x y && pyEqList xs ys
  | _, _ => false
termination_by a b => sizeOf a + sizeOf b
decreasing_by all_goals simp_wf; all_goals omega

/-- Python `==` on dicts: same size and every key of the first maps to an
equal value in the second. -/
def pyEqDict (a b : List (String × Value)) : Bool :=
  a.length == b.length && pyEqDictFwd a b
termination_by sizeOf a + sizeOf b + 1
decreasing_by all_goals simp_wf; all_goals omega

/-- Forward half of Python dict equality: each entry of `a` is present in `b`
with an equal value. -/
def pyEqDictFwd : List (String × Value) → List (String × Value) → Bool
  | [], _ => true
  | (k, v) :: rest, b => pyLookupEq k v b && pyEqDictFwd rest b
termination_by a b => sizeOf a + sizeOf b
decreasing_by all_goals simp_wf; all_goals omega

/-- Look up `k` in `b` and compare the found value with `v` by Python `==`;
`false` when the key is absent. -/
def pyLookupEq (k : String) (v : Value) : List (String × Value) → Bool
  | [] => false
  | (k2, w) :: rest => if k = k2 then pyEq v w else pyLookupEq k v rest
termination_by b => sizeOf v + sizeOf b
decreasing_by all_goals simp_wf; all_goals omega

end

/-- Python `set(la) == set(lb)` for lists of hashable values: mutual
containment under `==` (hashing is consistent with `==` for these values).
The theorems below apply this only under the `homog` hypothesis that every
element is hashable; on a list containing a dict or a list the source's
`set()` call raises `TypeError` instead. -/
def setEq (la lb : List Value) : Bool :=
  la.all (fun x => lb.any (fun y => pyEq x y)) &&
    lb.all (fun x => la.any (fun y => pyEq x y))

/-- The source's `item_a.items() == item_b.items()` on two dict elements of a
list (Python 3: dict-items views compare as sets of pairs, which for dicts
coincides with dict equality).  Non-dict operands have no `.items()` in the
source (an `AttributeError`); the claims below only quantify over dict
elements. -/
def itemsEq : Value → Value → Bool
  | .vdict a, .vdict b => pyEqDict a b
  | _, _ => false

/-- The dict branch of `__match_list` (lines 289-303): every element of `la`
has some element of `lb` with identical items. -/
def match_list_dicts (la lb : List Value) : Bool :=
  la.all (fun ia => lb.any (fun ib => itemsEq ia ib))

mutual

/-- `KubernetesObjectHelper.__match_dict` (lines 248-281), on the two dicts
passed as `Value.vdict`s.  The source is only ever called with dicts; other
arguments are mapped to `false` here (the source would raise on them). -/
def match_dict : Value → Value → Bool
  | .vdict [], .vdict [] => true
  | .vdict [], .vdict _ => false
  | .vdict _, .vdict [] => false
  | .vdict da, .vdict db => match_dict_items da db
  | _, _ => false
termination_by a b => sizeOf a + sizeOf b
decreasing_by all_goals simp_wf; all_goals omega

/-- The `for key_a, value_a in dict_a.items()` loop of `__match_dict`:
iterate the entries of `dict_a`, short-circuiting on the first mismatch. -/
def match_dict_items : List (String × Value) → List (String × Value) → Bool
  | [], _ => true
  | (k, va) :: rest, db =>
    match h : lookupV k db with
    | none => false
    | some vb => match_entry va vb && match_dict_items rest db
termination_by a b => sizeOf a + sizeOf b + 1
decreasing_by
  all_goals simp_wf
  all_goals try omega
  all_goals have hlk := sizeOf_lookupV _ h
  all_goals omega

/-- One iteration of the `__match_dict` loop body for key values `va` (from
`dict_a`) and `vb` (`dict_b[key_a]`): the `elif` chain of lines 259-280. -/
def match_entry : Value → Value → Bool
  | .vnull, .vnull => true
  | .vnull, _ => false
  | _, .vnull => false
  | .vlist la, vb => match_list (.vlist la) vb
  | .vdict da, vb => match_dict (.vdict da) vb
  | va, vb => pyEq va vb
termination_by va vb => sizeOf va + sizeOf vb + 1
decreasing_by all_goals simp_wf; all_goals omega

/-- `KubernetesObjectHelper.__match_list` (lines 283-318), on the two lists
passed as `Value.vlist`s.  Dispatches on the type of the first element of
`list_a`.  Non-list arguments are mapped to `false` (the recursive call sites
in the source only pass lists for well-formed `to_dict` output). -/
def match_list : Value → Value → Bool
  | .vlist [], .vlist [] => true
  | .vlist [], .vlist _ => false
  | .vlist _, .vlist [] => false
  | .vlist (.vdict d0 :: rest), .vlist lb => match_list_dicts (.vdict d0 :: rest) lb
  | .vlist (.vlist l0 :: rest), .vlist lb => match_list_lists (.vlist l0 :: rest) lb
  | .vlist la, .vlist lb => setEq la lb
  | _, _ => false
termination_by a b => sizeOf a + sizeOf b
decreasing_by all_goals simp_wf; all_goals omega

/-- The list-of-lists branch of `__match_list` (lines 304-314): every element
of `la` has some element of `lb` matched by a recursive `__match_list`. -/
def match_list_lists : List Value → List Value → Bool
  | [], _ => true
  | ia :: rest, lb => match_list_any ia lb && match_list_lists rest lb
termination_by a b => sizeOf a + sizeOf b + 1
decreasing_by all_goals simp_wf; all_goals omega

/-- The inner `for item_b in list_b` search of the list-of-lists branch. -/
def match_list_any (ia : Value) : List Value → Bool
  | [] => false
  | ib :: rest => match_list ia ib || match_list_any ia rest
termination_by b => sizeOf ia + sizeOf b
decreasing_by all_goals simp_wf; all_goals omega

end

/-- A Python object handed to `objects_match`: `None`, a swagger model
instance (with its class name and `to_dict()` image), or a primitive -- the
source accepts arbitrary objects and tests them by truthiness. -/
inductive PyObj where
  | pynone
  | pyint (n : Int)
  | pystr (s : String)
  | pymodel (typeName : String) (fields : List (String × Value))

/-- Python truthiness of a `PyObj`; swagger model instances define no
`__bool__`/`__len__`, hence are always truthy. -/
def PyObj.truthy : PyObj → Bool
  | .pynone => false
  | .pyint n => n != 0
  | .pystr s => s != ""
  | .pymodel _ _ => true

/-- Python `type(obj).__name__`. -/
def PyObj.typeName : PyObj → String
  | .pynone => "NoneType"
  | .pyint _ => "int"
  | .pystr _ => "str"
  | .pymodel t _ => t

/-- Python `==` on `PyObj`s (swagger-generated models compare by their
attribute dictionaries). -/
def pyObjEq : PyObj → PyObj → Bool
  | .pynone, .pynone => true
  | .pyint a, .pyint b => a == b
  | .pystr a, .pystr b => a == b
  | .pymodel t a, .pymodel u b => t == u && pyEqDict a b
  | _, _ => false

/-- `KubernetesObjectHelper.objects_match` (lines 236-246).  Returns `none`
when the source would raise (`to_dict()` on a truthy non-model object). -/
def objects_match : PyObj → PyObj → Option Bool
  | .pynone, .pynone => some true
  | a, b =>
    if !a.truthy || !b.truthy then some false
    else if a.typeName != b.typeName then some false
    else match a, b with
    | .pymodel _ da, .pymodel _ db => some (match_dict (.vdict da) (.vdict db))
    | _, _ => none

/-- Keys of a Python dict are unique: `true` when the association list has no
repeated key. -/
def nodupKeysB : List (String × Value) → Bool
  | [] => true
  | (k, _) :: rest => !(rest.any (fun p => p.1 == k)) && nodupKeysB rest

/-- Whether the value is hashable in Python (`None`, `bool`, `int`, `str`);
`set()` raises `TypeError` on a list that contains a `dict` or a `list`. -/
def isHashable : Value → Bool
  | .vnull => true
  | .vbool _ => true
  | .vint _ => true
  | .vstr _ => true
  | .vlist _ => false
  | .vdict _ => false

/-- Homogeneity of a list as `__match_list` assumes it: when the first element
is a dict (resp. a list), all elements are dicts (resp. lists), so that the
source's `.items()` calls (resp. recursive `__match_list` calls) are
well-defined; when the first element is a scalar, all elements are hashable,
so that the source's `set(list_a)` / `set(list_b)` calls are well-defined. -/
def homog (l : List Value) : Bool :=
  match l with
  | .vdict _ :: _ => l.all isDictV
  | .vlist _ :: _ => l.all isListV
  | _ :: _ => l.all isHashable
  | [] => true

mutual

/-- Well-formedness of a `Value` as an image of a real `to_dict()` call:
dicts have unique keys, and lists are homogeneous in the sense of `homog`,
recursively. -/
def wfV : Value → Bool
  | .vnull => true
  | .vbool _ => true
  | .vint _ => true
  | .vstr _ => true
  | .vlist l => wfList l && homog l
  | .vdict d => nodupKeysB d && wfDict d
termination_by v => sizeOf v
decreasing_by all_goals simp_wf; all_goals omega

/-- All elements of the list are well-formed. -/
def wfList : List Value → Bool
  | [] => true
  | x :: xs => wfV x && wfList xs
termination_by l => sizeOf l
decreasing_by all_goals simp_wf; all_goals omega

/-- All values of the dict are well-formed. -/
def wfDict : List (String × Value) → Bool
  | [] => true
  | (_, v) :: rest => wfV v && wfDict rest
termination_by d => sizeOf d
decreasing_by all_goals simp_wf; all_goals omega

end

/-- The transport error raised by the generated client
(`kubernetes.client.rest.ApiException`): an HTTP status, a reason phrase, and
the raw response body. -/
structure ApiException where
  status : Nat
  reason : String
  body : String

/-- Modelled from the spec: `ApiRequestError{status, message}`.  The concrete
class `OpenShiftException(msg, **kwargs)` lives in
`openshift/helper/exceptions.py`, which is not among the sources here; per the
spec it carries a message and, when supplied, the `status` keyword field. -/
structure OpenShiftError where
  msg : String
  status : Option Nat
deriving DecidableEq

/-- The Python built-in exceptions the claims mention. -/
inductive PyExc where
  | notImplementedError
  | attributeError
deriving DecidableEq

/-- `kubernetes.client.rest.ApiException.__str__` (external collaborator):
the status/reason header plus the response body dump (headers omitted). -/
def strApiException (e : ApiException) : String :=
  "(" ++ toString e.status ++ ")\nReason: " ++ e.reason ++
    "\nHTTP response body: " ++ e.body ++ "\n"

/-- `KubernetesObjectHelper.get_object` (lines 117-129).  `read_method` is the
resolved transport call (`__lookup_method('read', namespace)` plus the arity
dispatch on `namespace`); `jsonMsg` models `json.loads(body).get('message')`.
A 404 `ApiException` leaves `k8s_obj = None`; any other status raises
`OpenShiftException(msg, status=exc.status)`. -/
def get_object (jsonMsg : String → Option String)
    (read_method : String → Option String → Except ApiException α)
    (name : String) (ns : Option String) : Except OpenShiftError (Option α) :=
  match read_method name ns with
  | .ok k8s_obj => .ok (some k8s_obj)
  | .error exc =>
    if exc.status ≠ 404 then
      .error ⟨(jsonMsg exc.body).getD exc.reason, some exc.status⟩
    else .ok none

/-- The try/except of `KubernetesObjectHelper.create_object` (lines 171-179):
a transport failure is re-raised as `OpenShiftException(msg, status=exc.status)`
with `msg = json.loads(exc.body).get('message', exc.reason)`. -/
def create_object_call (jsonMsg : String → Option String)
    (create_result : Except ApiException α) : Except OpenShiftError α :=
  match create_result with
  | .ok return_obj => .ok return_obj
  | .error exc => .error ⟨(jsonMsg exc.body).getD exc.reason, some exc.status⟩

/-- The try/except of `KubernetesObjectHelper.patch_object` (lines 138-147):
the source computes `msg = json.loads(exc.body).get('message', exc.reason)`
but never uses it, and raises `OpenShiftException(str(exc))` -- with no
`status` keyword. -/
def patch_object_call (jsonMsg : String → Option String)
    (patch_result : Except ApiException α) : Except OpenShiftError α :=
  match patch_result with
  | .ok return_obj => .ok return_obj
  | .error exc =>
    let _msg := (jsonMsg exc.body).getD exc.reason
    .error ⟨strApiException exc, none⟩

/-- The try/except of `KubernetesObjectHelper.delete_object` (lines 203-220).
Both the namespaced and the cluster-scoped branch, and both arities of the
`V1DeleteOptions` probing, share this identical handler: re-raise as
`OpenShiftException(msg, status=exc.status)`. -/
def delete_object_call (jsonMsg : String → Option String)
    (delete_result : Except ApiException Unit) : Except OpenShiftError Unit :=
  match delete_result with
  | .ok _ => .ok ()
  | .error exc => .error ⟨(jsonMsg exc.body).getD exc.reason, some exc.status⟩

/-- `KubernetesObjectHelper.update_object` (lines 233-234): the body is
`pass`, so every call returns Python `None` and raises nothing. -/
def update_object (_name : String) (_ns : Option String) (_k8s_obj : Value) :
    Except PyExc (Option Value) :=
  .ok none

/-- The `status` attribute of a polled object: Python `None`, a status object
without a `phase` attribute, or one with a `phase` attribute (whose value may
itself be `None` or a string).  `hasattr(obj.status, 'phase')` holds exactly
for `withPhase`. -/
inductive StatusV where
  | noneStatus
  | withoutPhase
  | withPhase (phase : Option String)

/-- A cluster object as seen by the wait loops: only its `status` matters. -/
structure WObj where
  status : StatusV

/-- The shared wait loop of `create_object` (lines 181-197) and `patch_object`
(lines 149-166): `poll i` is the result of the `i`-th `get_object` call.
`obj.status` is dereferenced before `obj` is tested for `None`, so a `None`
poll raises `AttributeError`.  A phase equal to `'Active'` or any object
without a phase attribute breaks the loop; otherwise `tries` advances by 2 up
to `half = ceil(timeout / 2)` and the last observation is returned. -/
def ready_wait_go (poll : Nat → Option WObj) (half : Nat) :
    Nat → Nat → WObj → Except PyExc WObj
  | tries, i, return_obj =>
    if h : tries ≤ half then
      match poll i with
      | none => .error .attributeError
      | some obj =>
        match obj.status with
        | .withPhase p =>
          if p = some "Active" then .ok obj
          else ready_wait_go poll half (tries + 2) (i + 1) obj
        | _ => .ok obj
    else .ok return_obj
termination_by tries _ _ => half + 1 - tries
decreasing_by simp_wf; omega

/-- The `if wait:` block of `create_object`/`patch_object` with its
initialization `tries = 0; half = math.ceil(timeout / 2)`; `return_obj` is the
object returned by the create/patch transport call. -/
def ready_wait_loop (poll : Nat → Option WObj) (timeout : Nat)
    (return_obj : WObj) : Except PyExc WObj :=
  ready_wait_go poll ((timeout + 1) / 2) 0 0 return_obj

/-- Observable effort of the `delete_object` wait loop: how many `get_object`
polls ran and how many time-units were slept. -/
structure DeleteWaitStats where
  polls : Nat
  slept : Nat
deriving DecidableEq

/-- The `if wait:` loop of `KubernetesObjectHelper.delete_object`
(lines 222-231): `present i` is the truthiness of the `i`-th `get_object`
result.  While `tries <= half`, poll; break when the object is gone, else
`tries += 2` and `time.sleep(2)`. -/
def delete_wait_go (present : Nat → Bool) (half : Nat) : Nat → Nat → DeleteWaitStats
  | tries, i =>
    if h : tries ≤ half then
      if present i then
        let rest := delete_wait_go present half (tries + 2) (i + 1)
        ⟨rest.polls + 1, rest.slept + 2⟩
      else ⟨1, 0⟩
    else ⟨0, 0⟩
termination_by tries _ => half + 1 - tries
decreasing_by simp_wf; omega

/-- The delete wait loop with its initialization
`tries = 0; half = math.ceil(timeout / 2)` (`ceil(t/2) = (t+1)/2` on naturals). -/
def delete_object_wait (present : Nat → Bool) (timeout : Nat) : DeleteWaitStats :=
  delete_wait_go present ((timeout + 1) / 2) 0 0

/-- A value reachable from a swagger model instance by attribute access:
Python `None`, a non-model value (scalar, datetime, list, dict -- anything
without a `swagger_types` attribute), or a model instance carrying its ordered
`swagger_types` items as (attribute name, declared wire-type string, current
attribute value). -/
inductive KVal where
  | vnone
  | leaf (v : Value)
  | model (fields : List (String × String × KVal))

/-- Whether the attribute value is Python `None`. -/
def isVnone : KVal → Bool
  | .vnone => true
  | _ => false

mutual

/-- `KubernetesObjectHelper.__remove_creation_timestamps` (lines 425-437),
with the in-place mutation modelled as a state transformer.  `hasattr(obj,
'swagger_types')` holds exactly for `model`; on anything else the call is a
no-op. -/
def remove_creation_timestamps : KVal → KVal
  | .vnone => .vnone
  | .leaf v => .leaf v
  | .model fields => .model (remove_creation_timestamps_fields fields)
termination_by v => sizeOf v
decreasing_by all_goals simp_wf; all_goals omega

/-- The `for key, value in obj.swagger_types.items()` loop of
`__remove_creation_timestamps`: a field named `creation_timestamp` is set to
`None`; fields declared `dict(...)`/`list[...]` or `str`/`int`/`bool` are
skipped; any other field with a non-`None` value is recursed into. -/
def remove_creation_timestamps_fields :
    List (String × String × KVal) → List (String × String × KVal)
  | [] => []
  | (key, ty, v) :: rest =>
    (if key = "creation_timestamp" then (key, ty, KVal.vnone)
     else if ty.startsWith "dict(" || ty.startsWith "list[" then (key, ty, v)
     else if ty = "str" || ty = "int" || ty = "bool" then (key, ty, v)
     else if isVnone v then (key, ty, v)
     else (key, ty, remove_creation_timestamps v)) ::
      remove_creation_timestamps_fields rest
termination_by fs => sizeOf fs
decreasing_by all_goals simp_wf; all_goals omega

end

/-- Greedy match of the optional group `((alpha|beta)\d)?` of `VERSION_RX`
at the head of `cs`: the number of characters it consumes (0 when it does not
match).  `\d` is ASCII `0-9` here; the model names the source applies the
regex to are ASCII. -/
def versionSuffixLen : List Char → Nat
  | 'a' :: 'l' :: 'p' :: 'h' :: 'a' :: f :: _ => if f.isDigit then 6 else 0
  | 'b' :: 'e' :: 't' :: 'a' :: e :: _ => if e.isDigit then 5 else 0
  | _ => 0

/-- Match attempt of `VERSION_RX = re.compile("V\d((alpha|beta)\d)?")`
(line 26) at the head of `cs`: `some n` with the greedy match length `n`,
`none` when the position does not match. -/
def versionMatchLen : List Char → Option Nat
  | c :: d :: rest => if c = 'V' && d.isDigit then some (2 + versionSuffixLen rest) else none
  | _ => none

theorem two_le_versionMatchLen (cs : List Char) (n : Nat)
    (h : versionMatchLen cs = some n) : 2 ≤ n := by
  match cs with
  | [] => simp [versionMatchLen] at h
  | [c] => simp [versionMatchLen] at h
  | c :: d :: rest =>
    simp only [versionMatchLen] at h
    split at h
    · cases h; omega
    · cases h

/-- `VERSION_RX.sub('', cs)`: scan left to right, removing each leftmost
greedy match and continuing right after it, keeping every other character. -/
def versionSub : List Char → List Char
  | [] => []
  | c :: rest =>
    match h : versionMatchLen (c :: rest) with
    | some n => versionSub ((c :: rest).drop n)
    | none => c :: versionSub rest
termination_by cs => cs.length
decreasing_by
  · have h2 := two_le_versionMatchLen _ _ h
    simp [List.length_drop]
    omega
  · simp

/-- `KubernetesObjectHelper.get_base_model_name` (lines 385-392):
`VERSION_RX.sub('', model_name)`. -/
def get_base_model_name (model_name : String) : String :=
  ⟨versionSub model_name.data⟩

/-- Modelled from the spec, for comparison with the source: strip one version
token matching the grammar from the FRONT of the type name and leave the rest
of the name unchanged. -/
def spec_front_strip (model_name : String) : String :=
  match versionMatchLen model_name.data with
  | some n => ⟨model_name.data.drop n⟩
  | none => model_name


theorem lookupV_self {k : String} {v : Value} :
    ∀ {d : List (String × Value)}, nodupKeysB d = true → (k, v) ∈ d →
      lookupV k d = some v := by
  intro d
  induction d with
  | nil => intro _ hm; simp at hm
  | cons p rest ih =>
    obtain ⟨k2, w⟩ := p
    intro hnd hm
    simp only [nodupKeysB, Bool.and_eq_true, Bool.not_eq_true'] at hnd
    rcases List.mem_cons.mp hm with h | h
    · obtain ⟨rfl, rfl⟩ := Prod.mk.injEq .. ▸ h
      simp [lookupV]
    · have hk : k ≠ k2 := by
        rintro rfl
        have : rest.any (fun p => p.1 == k) = true :=
          List.any_eq_true.mpr ⟨(k, v), h, by simp⟩
        simp [this] at hnd
      simp [lookupV, hk, ih hnd.2 h]

theorem pyLookupEq_mem {k : String} {v : Value} :
    ∀ {d : List (String × Value)}, nodupKeysB d = true → (k, v) ∈ d →
      pyLookupEq k v d = pyEq v v := by
  intro d
  induction d with
  | nil => intro _ hm; simp at hm
  | cons p rest ih =>
    obtain ⟨k2, w⟩ := p
    intro hnd hm
    simp only [nodupKeysB, Bool.and_eq_true, Bool.not_eq_true'] at hnd
    rcases List.mem_cons.mp hm with h | h
    · obtain ⟨rfl, rfl⟩ := Prod.mk.injEq .. ▸ h
      simp [pyLookupEq]
    · have hk : k ≠ k2 := by
        rintro rfl
        have : rest.any (fun p => p.1 == k) = true :=
          List.any_eq_true.mpr ⟨(k, v), h, by simp⟩
        simp [this] at hnd
      simp [pyLookupEq, hk, ih hnd.2 h]

theorem wfList_mem {l : List Value} (h : wfList l = true) {x : Value}
    (hx : x ∈ l) : wfV x = true := by
  induction l with
  | nil => simp at hx
  | cons y ys ih =>
    rw [wfList] at h
    simp only [Bool.and_eq_true] at h
    rcases List.mem_cons.mp hx with rfl | hx
    · exact h.1
    · exact ih h.2 hx

theorem wfDict_mem {d : List (String × Value)} (h : wfDict d = true)
    {p : String × Value} (hp : p ∈ d) : wfV p.2 = true := by
  induction d with
  | nil => simp at hp
  | cons q qs ih =>
    obtain ⟨k2, w⟩ := q
    rw [wfDict] at h
    simp only [Bool.and_eq_true] at h
    rcases List.mem_cons.mp hp with rfl | hp
    · exact h.1
    · exact ih h.2 hp

mutual

theorem pyEq_refl : ∀ v : Value, wfV v = true → pyEq v v = true
  | .vnull, _ => by simp [pyEq]
  | .vbool b, _ => by simp [pyEq]
  | .vint n, _ => by simp [pyEq]
  | .vstr s, _ => by simp [pyEq]
  | .vlist l, h => by
    rw [wfV] at h
    simp only [Bool.and_eq_true] at h
    rw [pyEq]
    exact pyEqList_refl l h.1
  | .vdict d, h => by
    rw [wfV] at h
    simp only [Bool.and_eq_true] at h
    rw [pyEq, pyEqDict]
    simp only [Bool.and_eq_true, beq_self_eq_true, true_and]
    exact pyEqDictFwd_refl d d h.1 h.2 (fun p hp => hp)
termination_by v => sizeOf v
decreasing_by all_goals simp_wf; all_goals omega

theorem pyEqList_refl : ∀ l : List Value, wfList l = true → pyEqList l l = true
  | [], _ => by rw [pyEqList]
  | x :: xs, h => by
    rw [wfList] at h
    simp only [Bool.and_eq_true] at h
    rw [pyEqList]
    simp only [Bool.and_eq_true]
    exact ⟨pyEq_refl x h.1, pyEqList_refl xs h.2⟩
termination_by l => sizeOf l
decreasing_by all_goals simp_wf; all_goals omega

theorem pyEqDictFwd_refl :
    ∀ (a d : List (String × Value)), nodupKeysB d = true → wfDict d = true →
      (∀ p ∈ a, p ∈ d) → pyEqDictFwd a d = true
  | [], _, _, _, _ => by rw [pyEqDictFwd]
  | (k, v) :: rest, d, hnd, hwd, hsub => by
    rw [pyEqDictFwd]
    simp only [Bool.and_eq_true]
    have hmem : (k, v) ∈ d := hsub _ (List.mem_cons_self _ _)
    constructor
    · rw [pyLookupEq_mem hnd hmem]
      exact pyEq_refl v (wfDict_mem hwd hmem)
    · exact pyEqDictFwd_refl rest d hnd hwd (fun p hp => hsub p (List.mem_cons_of_mem _ hp))
termination_by a _ => sizeOf a
decreasing_by all_goals simp_wf; all_goals omega

end

theorem setEq_refl {l : List Value} (h : ∀ x ∈ l, wfV x = true) :
    setEq l l = true := by
  simp only [setEq, Bool.and_eq_true]
  constructor <;>
  · refine List.all_eq_true.mpr fun x hx => ?_
    exact List.any_eq_true.mpr ⟨x, hx, pyEq_refl x (h x hx)⟩

theorem match_list_dicts_refl {l : List Value}
    (h : ∀ x ∈ l, isDictV x = true ∧ wfV x = true) :
    match_list_dicts l l = true := by
  simp only [match_list_dicts]
  refine List.all_eq_true.mpr fun ia hia => ?_
  refine List.any_eq_true.mpr ⟨ia, hia, ?_⟩
  obtain ⟨hd, hw⟩ := h ia hia
  match ia, hd with
  | .vdict d, _ =>
    have := pyEq_refl (.vdict d) hw
    rw [pyEq] at this
    rw [itemsEq]
    exact this

theorem match_list_any_of_mem {x : Value} :
    ∀ {l : List Value}, x ∈ l → match_list x x = true →
      match_list_any x l = true := by
  intro l
  induction l with
  | nil => intro h; simp at h
  | cons y ys ih =>
    intro hx hm
    rw [match_list_any]
    simp only [Bool.or_eq_true]
    rcases List.mem_cons.mp hx with rfl | hx
    · exact Or.inl hm
    · exact Or.inr (ih hx hm)

mutual

theorem match_entry_refl : ∀ v : Value, wfV v = true → match_entry v v = true
  | .vnull, _ => by simp [match_entry]
  | .vbool b, h => by simp only [match_entry]; exact pyEq_refl _ h
  | .vint n, h => by simp only [match_entry]; exact pyEq_refl _ h
  | .vstr s, h => by simp only [match_entry]; exact pyEq_refl _ h
  | .vlist l, h => by simp only [match_entry]; exact match_list_refl l h
  | .vdict d, h => by simp only [match_entry]; exact match_dict_refl d h
termination_by v => sizeOf v + 1
decreasing_by all_goals simp_wf; all_goals omega

theorem match_dict_refl :
    ∀ d : List (String × Value), wfV (.vdict d) = true →
      match_dict (.vdict d) (.vdict d) = true
  | [], _ => by simp [match_dict]
  | (k, v) :: rest, h => by
    rw [wfV] at h
    simp only [Bool.and_eq_true] at h
    simp only [match_dict]
    exact match_dict_items_refl _ _ h.1 h.2 (fun p hp => hp)
termination_by d => sizeOf d + 1
decreasing_by all_goals simp_wf; all_goals omega

theorem match_dict_items_refl :
    ∀ (a d : List (String × Value)), nodupKeysB d = true → wfDict d = true →
      (∀ p ∈ a, p ∈ d) → match_dict_items a d = true
  | [], _, _, _, _ => by rw [match_dict_items]
  | (k, va) :: rest, d, hnd, hwd, hsub => by
    have hmem : (k, va) ∈ d := hsub _ (List.mem_cons_self _ _)
    have hlk : lookupV k d = some va := lookupV_self hnd hmem
    rw [match_dict_items]
    split
    · rename_i heq
      rw [hlk] at heq
      simp at heq
    · rename_i vb heq
      rw [hlk] at heq
      injection heq with hv
      subst hv
      simp only [Bool.and_eq_true]
      exact ⟨match_entry_refl va (wfDict_mem hwd hmem),
        match_dict_items_refl rest d hnd hwd
          (fun p hp => hsub p (List.mem_cons_of_mem _ hp))⟩
termination_by a _ => sizeOf a
decreasing_by all_goals simp_wf; all_goals omega

theorem match_list_refl :
    ∀ l : List Value, wfV (.vlist l) = true →
      match_list (.vlist l) (.vlist l) = true
  | [], _ => by simp [match_list]
  | .vdict d0 :: rest, h => by
    rw [wfV] at h
    simp only [Bool.and_eq_true] at h
    obtain ⟨hwl, hhom⟩ := h
    simp only [match_list]
    apply match_list_dicts_refl
    intro x hx
    refine ⟨?_, wfList_mem hwl hx⟩
    rw [homog] at hhom
    exact List.all_eq_true.mp hhom x hx
  | .vlist l0 :: rest, h => by
    rw [wfV] at h
    simp only [Bool.and_eq_true] at h
    obtain ⟨hwl, hhom⟩ := h
    simp only [match_list]
    apply match_list_lists_refl
    · exact fun x hx => hx
    · rw [homog] at hhom
      exact List.all_eq_true.mp hhom
    · exact hwl
  | .vnull :: rest, h => by
    rw [wfV] at h
    simp only [Bool.and_eq_true] at h
    simp only [match_list]
    exact setEq_refl (fun x hx => wfList_mem h.1 hx)
  | .vbool b :: rest, h => by
    rw [wfV] at h
    simp only [Bool.and_eq_true] at h
    simp only [match_list]
    exact setEq_refl (fun x hx => wfList_mem h.1 hx)
  | .vint n :: rest, h => by
    rw [wfV] at h
    simp only [Bool.and_eq_true] at h
    simp only [match_list]
    exact setEq_refl (fun x hx => wfList_mem h.1 hx)
  | .vstr s :: rest, h => by
    rw [wfV] at h
    simp only [Bool.and_eq_true] at h
    simp only [match_list]
    exact setEq_refl (fun x hx => wfList_mem h.1 hx)
termination_by l => sizeOf l + 1
decreasing_by all_goals simp_wf; all_goals omega

theorem match_list_lists_refl :
    ∀ (a l : List Value), (∀ x ∈ a, x ∈ l) → (∀ x ∈ l, isListV x = true) →
      wfList l = true → match_list_lists a l = true
  | [], _, _, _, _ => by rw [match_list_lists]
  | x :: rest, l, hsub, hlist, hwl => by
    have hx : x ∈ l := hsub _ (List.mem_cons_self _ _)
    have hxl : isListV x = true := hlist x hx
    rw [match_list_lists]
    simp only [Bool.and_eq_true]
    constructor
    · match x, hx, hxl with
      | .vlist lx, hx, _ =>
        exact match_list_any_of_mem hx
          (match_list_refl lx (wfList_mem hwl hx))
    · exact match_list_lists_refl rest l
        (fun y hy => hsub y (List.mem_cons_of_mem _ hy)) hlist hwl
termination_by a _ => sizeOf a
decreasing_by all_goals simp_wf; all_goals omega

end

/-- C1: `objects_match` is reflexive on non-null structured objects: for every
swagger model instance `x` -- any class name `t` and any well-formed
`to_dict()` image `d` (keys unique per dict, lists homogeneous, as real model
output is) -- `objects_match(x, x)` returns `True`. -/
theorem objects_match_refl (t : String) (d : List (String × Value))
    (h : wfV (.vdict d) = true) :
    objects_match (.pymodel t d) (.pymodel t d) = some true := by
  have hm : match_dict (.vdict d) (.vdict d) = true := match_dict_refl d h
  simp [objects_match, PyObj.truthy, PyObj.typeName, hm]

/-- Witness for C1 at a concrete service-like object. -/
theorem objects_match_refl_witness :
    objects_match
        (.pymodel "V1Service"
          [("metadata", .vdict [("name", .vstr "svc"),
              ("labels", .vlist [.vstr "a", .vstr "b"])]),
           ("spec", .vnull)])
        (.pymodel "V1Service"
          [("metadata", .vdict [("name", .vstr "svc"),
              ("labels", .vlist [.vstr "a", .vstr "b"])]),
           ("spec", .vnull)]) = some true :=
  objects_match_refl _ _
    (by simp [wfV, wfList, wfDict, nodupKeysB, homog, isDictV, isListV,
      isHashable])

/-- C2: for two non-empty lists whose elements are mappings (the domain on
which the source's `.items()` calls are defined), `__match_list` returns
`True` iff every element of `la` has some element of `lb` with identical
field/value pairs -- a one-directional containment check that ignores extra
elements of `lb` and duplicate counts. -/
theorem match_list_dicts_iff (la lb : List Value)
    (ha : la ≠ []) (hb : lb ≠ [])
    (hda : ∀ x ∈ la, isDictV x = true) (_hdb : ∀ x ∈ lb, isDictV x = true) :
    (match_list (.vlist la) (.vlist lb) = true ↔
      ∀ a ∈ la, ∃ b ∈ lb, itemsEq a b = true) := by
  match la, ha with
  | a0 :: la', _ =>
    match lb, hb with
    | b0 :: lb', _ =>
      have h0 := hda a0 (List.mem_cons_self _ _)
      match a0, h0 with
      | .vdict d0, _ =>
        simp only [match_list, match_list_dicts, List.all_eq_true,
          List.any_eq_true]

/-- Witness for C2: `CollectionEqual([a,a,b],[a,b])` is true for distinct
mappings `a`, `b` -- the duplicate on the left is not detected. -/
theorem match_list_dicts_iff_witness :
    match_list
        (.vlist [.vdict [("x", .vint 1)], .vdict [("x", .vint 1)],
          .vdict [("x", .vint 2)]])
        (.vlist [.vdict [("x", .vint 1)], .vdict [("x", .vint 2)]]) = true := by
  refine (match_list_dicts_iff _ _ (by simp) (by simp)
    (by simp [isDictV]) (by simp [isDictV])).mpr ?_
  simp only [List.mem_cons, List.not_mem_nil, or_false]
  intro a ha
  rcases ha with rfl | rfl | rfl
  · exact ⟨.vdict [("x", .vint 1)], Or.inl rfl,
      by simp [itemsEq, pyEqDict, pyEqDictFwd, pyLookupEq, pyEq]⟩
  · exact ⟨.vdict [("x", .vint 1)], Or.inl rfl,
      by simp [itemsEq, pyEqDict, pyEqDictFwd, pyLookupEq, pyEq]⟩
  · exact ⟨.vdict [("x", .vint 2)], Or.inr rfl,
      by simp [itemsEq, pyEqDict, pyEqDictFwd, pyLookupEq, pyEq]⟩

/-- C10: `objects_match` tests nullity by truthiness: any two equal, non-null
but falsy arguments compare as `False`, although `objects_match(None, None)`
is `True`. -/
theorem objects_match_falsy (a b : PyObj)
    (ha : a ≠ .pynone) (hb : b ≠ .pynone)
    (heq : pyObjEq a b = true)
    (hfa : a.truthy = false) (hfb : b.truthy = false) :
    objects_match a b = some false ∧
      objects_match .pynone .pynone = some true := by
  refine ⟨?_, rfl⟩
  cases a <;> cases b <;> simp_all [objects_match, PyObj.truthy, pyObjEq]

/-- Witness for C10 at the pair `(0, 0)`. -/
theorem objects_match_falsy_witness :
    objects_match (.pyint 0) (.pyint 0) = some false ∧
      objects_match .pynone .pynone = some true :=
  objects_match_falsy (.pyint 0) (.pyint 0)
    (fun h => PyObj.noConfusion h) (fun h => PyObj.noConfusion h) rfl rfl rfl

/-- C3: `get_object` maps a 404 transport failure to `None`, surfaces any
other transport failure as an error carrying the failure body's message (or
its reason when absent) and its status, and returns the object on success --
for every name, optional namespace, transport behaviour and JSON message
extraction. -/
theorem get_object_spec {α : Type} (jsonMsg : String → Option String)
    (read_method : String → Option String → Except ApiException α)
    (name : String) (ns : Option String) :
    (∀ o, read_method name ns = .ok o →
      get_object jsonMsg read_method name ns = .ok (some o)) ∧
    (∀ exc, read_method name ns = .error exc → exc.status = 404 →
      get_object jsonMsg read_method name ns = .ok none) ∧
    (∀ exc, read_method name ns = .error exc → exc.status ≠ 404 →
      get_object jsonMsg read_method name ns =
        .error ⟨(jsonMsg exc.body).getD exc.reason, some exc.status⟩) := by
  refine ⟨fun o h => ?_, fun exc h h404 => ?_, fun exc h h404 => ?_⟩
  · simp [get_object, h]
  · simp [get_object, h, h404]
  · simp [get_object, h, h404]

/-- Witness for C3: a 500 failure with a JSON body message surfaces as an
error carrying that message and status 500. -/
theorem get_object_spec_witness :
    get_object (fun _ => some "boom")
        (fun _ _ => (.error ⟨500, "Internal Server Error", "ignored"⟩ :
          Except ApiException Unit))
        "svc" (some "default") = .error ⟨"boom", some 500⟩ :=
  (get_object_spec (fun _ => some "boom") _ "svc" (some "default")).2.2
    ⟨500, "Internal Server Error", "ignored"⟩ rfl (by decide)

/-- C4 (the claim fails on the code): `update_object` is exposed but its body
is `pass` -- it silently returns `None` for every input and never raises
`NotImplementedError`. -/
theorem update_object_silent_noop (name : String) (ns : Option String)
    (obj : Value) :
    update_object name ns obj = .ok none ∧
      update_object name ns obj ≠ .error PyExc.notImplementedError :=
  ⟨rfl, by simp [update_object]⟩

/-- C5 (the claim fails on the code): at a 500 transport failure whose body
message is `boom`, `patch_object` raises `OpenShiftException(str(exc))` with
no `status` field -- the computed message and the status are both dropped --
while `create_object` and `delete_object` preserve both. -/
theorem patch_object_drops_status :
    (patch_object_call (fun _ => some "boom")
        (.error ⟨500, "Internal Server Error", "errbody"⟩ :
          Except ApiException Unit) =
      .error ⟨strApiException ⟨500, "Internal Server Error", "errbody"⟩, none⟩) ∧
    (∀ e : OpenShiftError,
      patch_object_call (fun _ => some "boom")
          (.error ⟨500, "Internal Server Error", "errbody"⟩ :
            Except ApiException Unit) = .error e →
        e.msg ≠ "boom" ∧ e.status ≠ some 500) ∧
    (create_object_call (fun _ => some "boom")
        (.error ⟨500, "Internal Server Error", "errbody"⟩ :
          Except ApiException Unit) = .error ⟨"boom", some 500⟩) ∧
    (delete_object_call (fun _ => some "boom")
        (.error ⟨500, "Internal Server Error", "errbody"⟩) =
      .error ⟨"boom", some 500⟩) := by
  refine ⟨rfl, fun e he => ?_, rfl, rfl⟩
  have : e = ⟨strApiException ⟨500, "Internal Server Error", "errbody"⟩, none⟩ := by
    cases he; rfl
  subst this
  exact ⟨by simp [strApiException]; decide, by simp⟩

theorem delete_wait_go_eval (present : Nat → Bool) (hp : ∀ j, present j = true) :
    ∀ n half tries i, half + 1 - tries = n →
      delete_wait_go present half tries i =
        if tries ≤ half then
          ⟨(half - tries) / 2 + 1, 2 * ((half - tries) / 2 + 1)⟩
        else ⟨0, 0⟩ := by
  intro n
  induction n using Nat.strong_induction_on with
  | _ n ih =>
    intro half tries i hn
    rw [delete_wait_go]
    split
    · rename_i ht
      simp only [hp i, eq_self_iff_true, if_true]
      rw [ih (half + 1 - (tries + 2)) (by omega) half (tries + 2) (i + 1) rfl]
      split
      · rename_i ht2
        simp only [DeleteWaitStats.mk.injEq]
        constructor <;> omega
      · rename_i ht2
        simp only [DeleteWaitStats.mk.injEq]
        constructor <;> omega
    · rfl

/-- C6 counterexample: at `timeout = 0` the wait loop of `delete_object`
still performs one `get_object` poll, exceeding the claimed budget of
`ceil(0 / 2) = 0` iterations. -/
theorem delete_wait_budget_counterexample :
    (delete_object_wait (fun _ => true) 0).polls = 1 ∧
      ¬ ((delete_object_wait (fun _ => true) 0).polls ≤ (0 + 1) / 2) := by
  have h : delete_object_wait (fun _ => true) 0 = ⟨1, 2⟩ := by
    simp [delete_object_wait, delete_wait_go]
  rw [h]
  exact ⟨rfl, by decide⟩

/-- C6 amended: for every timeout, `delete_object` with `wait=true` against an
object that never disappears terminates after exactly
`floor(ceil(timeout/2) / 2) + 1` polls -- at most `ceil(timeout/2) + 1`, one
more than the claimed `ceil(timeout/2)` bound, which the run at `timeout = 0`
exceeds -- sleeping 2 time-units after each poll, and returns without raising
any timeout error (the result type has no error case). -/
theorem delete_wait_budget (present : Nat → Bool) (timeout : Nat)
    (h : ∀ i, present i = true) :
    (delete_object_wait present timeout).polls = ((timeout + 1) / 2) / 2 + 1 ∧
    (delete_object_wait present timeout).polls ≤ (timeout + 1) / 2 + 1 ∧
    (delete_object_wait present timeout).slept =
      2 * (delete_object_wait present timeout).polls := by
  have he := delete_wait_go_eval present h (((timeout + 1) / 2) + 1)
    ((timeout + 1) / 2) 0 0 (by omega)
  rw [delete_object_wait, he, if_pos (Nat.zero_le _)]
  refine ⟨?_, ?_, ?_⟩
  · show ((timeout + 1) / 2 - 0) / 2 + 1 = ((timeout + 1) / 2) / 2 + 1
    omega
  · show ((timeout + 1) / 2 - 0) / 2 + 1 ≤ (timeout + 1) / 2 + 1
    omega
  · rfl

/-- Witness for the amended C6 at `timeout = 60`: 16 polls, 32 time-units
slept, within the amended budget of 31. -/
theorem delete_wait_budget_witness :
    (delete_object_wait (fun _ => true) 60).polls = ((60 + 1) / 2) / 2 + 1 ∧
    (delete_object_wait (fun _ => true) 60).polls ≤ (60 + 1) / 2 + 1 ∧
    (delete_object_wait (fun _ => true) 60).slept =
      2 * (delete_object_wait (fun _ => true) 60).polls :=
  delete_wait_budget (fun _ => true) 60 (fun _ => rfl)

theorem ready_wait_go_ok (poll : Nat → Option WObj)
    (hp : ∀ j, (poll j).isSome) :
    ∀ n half tries i ret, half + 1 - tries = n →
      ∃ r, ready_wait_go poll half tries i ret = .ok r := by
  intro n
  induction n using Nat.strong_induction_on with
  | _ n ih =>
    intro half tries i ret hn
    rw [ready_wait_go]
    split
    · rename_i ht
      obtain ⟨obj, hobj⟩ := Option.isSome_iff_exists.mp (hp i)
      rw [hobj]
      obtain ⟨st⟩ := obj
      cases st with
      | noneStatus => exact ⟨_, rfl⟩
      | withoutPhase => exact ⟨_, rfl⟩
      | withPhase p =>
        by_cases hac : p = some "Active"
        · exact ⟨⟨.withPhase p⟩, by simp [hac]⟩
        · obtain ⟨r, hr⟩ := ih (half + 1 - (tries + 2)) (by omega) half
            (tries + 2) (i + 1) ⟨.withPhase p⟩ rfl
          exact ⟨r, by simp [hac, hr]⟩
    · exact ⟨ret, rfl⟩

theorem ready_wait_go_err (poll : Nat → Option WObj) :
    ∀ (k half tries i : Nat) (ret : WObj), tries + 2 * k ≤ half →
      (∀ j < k, ∃ o p, poll (i + j) = some o ∧ o.status = .withPhase p ∧
        p ≠ some "Active") →
      poll (i + k) = none →
      ready_wait_go poll half tries i ret = .error .attributeError := by
  intro k
  induction k with
  | zero =>
    intro half tries i ret hb hcont hnone
    rw [ready_wait_go, dif_pos (by omega : tries ≤ half)]
    simp only [Nat.add_zero] at hnone
    rw [hnone]
  | succ k ih =>
    intro half tries i ret hb hcont hnone
    rw [ready_wait_go, dif_pos (by omega : tries ≤ half)]
    obtain ⟨o, p, hpo, hst, hact⟩ := hcont 0 (Nat.succ_pos k)
    simp only [Nat.add_zero] at hpo
    rw [hpo]
    obtain ⟨st⟩ := o
    simp only at hst
    subst hst
    simp only [hact, if_false, ite_false, if_neg hact]
    refine ih half (tries + 2) (i + 1) ⟨.withPhase p⟩ (by omega) ?_ ?_
    · intro j hj
      have := hcont (j + 1) (by omega)
      simpa [Nat.add_comm, Nat.add_left_comm, Nat.add_assoc] using this
    · have : i + 1 + k = i + (k + 1) := by omega
      rw [this, hnone]

/-- C9: in the shared wait loop of `create_object` and `patch_object`,
`obj.status` is dereferenced before `obj` is checked against `None`: when
every poll yields an object the loop always completes normally, but if the
poll reached after `k` continuing iterations returns `None`, the operation
raises `AttributeError` instead of continuing to poll. -/
theorem ready_wait_none_raises (poll : Nat → Option WObj) (timeout : Nat)
    (init : WObj) :
    ((∀ j, (poll j).isSome) → ∃ r, ready_wait_loop poll timeout init = .ok r) ∧
    (∀ k, 2 * k ≤ (timeout + 1) / 2 →
      (∀ j < k, ∃ o p, poll j = some o ∧ o.status = .withPhase p ∧
        p ≠ some "Active") →
      poll k = none →
      ready_wait_loop poll timeout init = .error .attributeError) := by
  constructor
  · intro hp
    exact ready_wait_go_ok poll hp _ _ 0 0 init rfl
  · intro k hk hcont hnone
    refine ready_wait_go_err poll k _ 0 0 init (by omega) ?_ ?_
    · intro j hj
      simpa using hcont j hj
    · simpa using hnone

/-- Witness for C9: a first poll returning `None` makes the wait loop raise
`AttributeError`. -/
theorem ready_wait_none_raises_witness :
    ready_wait_loop (fun _ => none) 60 ⟨.noneStatus⟩ =
      .error .attributeError :=
  (ready_wait_none_raises (fun _ => none) 60 ⟨.noneStatus⟩).2 0 (by omega)
    (fun j hj => absurd hj (Nat.not_lt_zero j)) rfl

theorem isVnone_remove_creation_timestamps (v : KVal) :
    isVnone (remove_creation_timestamps v) = isVnone v := by
  cases v with
  | vnone => rw [remove_creation_timestamps]
  | leaf w => rw [remove_creation_timestamps]
  | model fs => rw [remove_creation_timestamps]; rfl

set_option maxHeartbeats 1600000 in
theorem remove_creation_timestamps_idem_all : ∀ n : Nat,
    (∀ v : KVal, sizeOf v ≤ n →
      remove_creation_timestamps (remove_creation_timestamps v) =
        remove_creation_timestamps v) ∧
    (∀ fs : List (String × String × KVal), sizeOf fs ≤ n →
      remove_creation_timestamps_fields (remove_creation_timestamps_fields fs) =
        remove_creation_timestamps_fields fs) := by
  intro n
  induction n using Nat.strong_induction_on with
  | _ n ih =>
    constructor
    · intro v hv
      cases v with
      | vnone => rw [remove_creation_timestamps, remove_creation_timestamps]
      | leaf w => rw [remove_creation_timestamps, remove_creation_timestamps]
      | model fields =>
        have hlt : sizeOf fields < n := by
          simp only [KVal.model.sizeOf_spec] at hv
          omega
        rw [remove_creation_timestamps, remove_creation_timestamps]
        exact congrArg KVal.model ((ih (sizeOf fields) hlt).2 fields le_rfl)
    · intro fs hfs
      cases fs with
      | nil =>
        rw [remove_creation_timestamps_fields, remove_creation_timestamps_fields]
      | cons p rest =>
        obtain ⟨key, ty, v⟩ := p
        have hszr : sizeOf rest < n := by
          simp only [List.cons.sizeOf_spec] at hfs
          omega
        have hszv : sizeOf v < n := by
          simp only [List.cons.sizeOf_spec, Prod.mk.sizeOf_spec] at hfs
          omega
        have hrest := (ih (sizeOf rest) hszr).2 rest le_rfl
        have hval := (ih (sizeOf v) hszv).1 v le_rfl
        rw [remove_creation_timestamps_fields]
        by_cases h1 : key = "creation_timestamp"
        · rw [if_pos h1, remove_creation_timestamps_fields, if_pos h1, hrest]
        · rw [if_neg h1]
          by_cases h2 : (ty.startsWith "dict(" || ty.startsWith "list[") = true
          · rw [if_pos h2, remove_creation_timestamps_fields, if_neg h1,
              if_pos h2, hrest]
          · rw [if_neg h2]
            by_cases h3 : (decide (ty = "str") || decide (ty = "int") ||
                decide (ty = "bool")) = true
            · rw [if_pos h3, remove_creation_timestamps_fields, if_neg h1,
                if_neg h2, if_pos h3, hrest]
            · rw [if_neg h3]
              by_cases h4 : isVnone v = true
              · rw [if_pos h4, remove_creation_timestamps_fields, if_neg h1,
                  if_neg h2, if_neg h3, if_pos h4, hrest]
              · rw [if_neg h4, remove_creation_timestamps_fields, if_neg h1,
                  if_neg h2, if_neg h3,
                  if_neg (fun hc => h4
                    ((isVnone_remove_creation_timestamps v) ▸ hc)),
                  hval, hrest]

theorem remove_creation_timestamps_idem (v : KVal) :
    remove_creation_timestamps (remove_creation_timestamps v) =
      remove_creation_timestamps v :=
  (remove_creation_timestamps_idem_all (sizeOf v)).1 v le_rfl

/-- C7: the sanitizer is idempotent: for every attribute tree `obj`, applying
`__remove_creation_timestamps` a second time to the already-sanitized object
changes nothing. -/
theorem strip_server_assigned_fields_idempotent (obj : KVal) :
    remove_creation_timestamps (remove_creation_timestamps obj) =
      remove_creation_timestamps obj :=
  remove_creation_timestamps_idem obj

theorem versionSub_of_noMatch :
    ∀ cs : List Char, (∀ i < cs.length, versionMatchLen (cs.drop i) = none) →
      versionSub cs = cs := by
  intro cs
  induction cs with
  | nil => intro _; rw [versionSub]
  | cons c rest ih =>
    intro h
    have h0 := h 0 (by simp)
    simp only [List.drop_zero] at h0
    rw [versionSub]
    split
    · rename_i n hn
      rw [h0] at hn
      cases hn
    · congr 1
      apply ih
      intro i hi
      have := h (i + 1) (by simp; omega)
      simpa [List.drop_succ_cons] using this

theorem versionSub_append_noMatch :
    ∀ (pre rest : List Char),
      (∀ i < pre.length, versionMatchLen ((pre ++ rest).drop i) = none) →
      versionSub (pre ++ rest) = pre ++ versionSub rest := by
  intro pre
  induction pre with
  | nil => intro rest _; simp
  | cons c pre2 ih =>
    intro rest h
    have h0 := h 0 (by simp)
    simp only [List.drop_zero, List.cons_append] at h0
    rw [List.cons_append, versionSub]
    split
    · rename_i n hn
      rw [h0] at hn
      cases hn
    · rw [List.cons_append]
      congr 1
      apply ih
      intro i hi
      have := h (i + 1) (by simp; omega)
      simpa [List.drop_succ_cons, List.cons_append] using this

theorem versionSub_tok (tok post : List Char)
    (h : versionMatchLen (tok ++ post) = some tok.length) :
    versionSub (tok ++ post) = versionSub post := by
  have h2 := two_le_versionMatchLen _ _ h
  cases tok with
  | nil => simp at h2
  | cons c tok2 =>
    rw [List.cons_append] at h
    rw [List.cons_append, versionSub]
    split
    · rename_i n hn
      rw [h] at hn
      injection hn with hn2
      subst hn2
      congr 1
      have heq : c :: (tok2 ++ post) = (c :: tok2) ++ post := by simp
      rw [heq, List.drop_left]
    · rename_i hn
      rw [h] at hn
      cases hn

/-- C8 counterexample: `get_base_model_name` removes the version token from
the MIDDLE of `AppsV1beta1Deployment` (a real model-class name shape), whereas
stripping only a front token -- the claim's description -- leaves the name
unchanged since it does not start with a version token. -/
theorem get_base_model_name_counterexample :
    get_base_model_name "AppsV1beta1Deployment" = "AppsDeployment" ∧
      spec_front_strip "AppsV1beta1Deployment" = "AppsV1beta1Deployment" ∧
      get_base_model_name "AppsV1beta1Deployment" ≠
        spec_front_strip "AppsV1beta1Deployment" := by
  have h1 : get_base_model_name "AppsV1beta1Deployment" = "AppsDeployment" := by
    simp [get_base_model_name, versionSub, versionMatchLen, versionSuffixLen]
  have h2 : spec_front_strip "AppsV1beta1Deployment" =
      "AppsV1beta1Deployment" := by
    simp [spec_front_strip, versionMatchLen]
  refine ⟨h1, h2, ?_⟩
  rw [h1, h2]
  decide

/-- C8 amended: `get_base_model_name` removes every occurrence of the version
token grammar `V<digit>[(alpha|beta)<digit>]` throughout the type name, not
only a leading one: for a name `pre ++ tok ++ post` where no match starts
inside `pre`, `tok` is the (greedy, maximal) match at its position, and
`post` contains no match, the result is `pre ++ post`.  In particular a
leading version token (`pre` empty) is stripped, but the remainder is left
unchanged only when it contains no further token. -/
theorem get_base_model_name_amended (pre tok post : String)
    (h1 : ∀ i < pre.data.length,
      versionMatchLen ((pre.data ++ (tok.data ++ post.data)).drop i) = none)
    (h2 : versionMatchLen (tok.data ++ post.data) = some tok.data.length)
    (h3 : ∀ i < post.data.length, versionMatchLen (post.data.drop i) = none) :
    get_base_model_name (pre ++ tok ++ post) = pre ++ post := by
  have key : versionSub (pre.data ++ (tok.data ++ post.data)) =
      pre.data ++ post.data := by
    rw [versionSub_append_noMatch _ _ h1, versionSub_tok _ _ h2,
      versionSub_of_noMatch _ h3]
  have hdata : (pre ++ tok ++ post).data =
      pre.data ++ (tok.data ++ post.data) := by
    simp [String.data_append]
  simp only [get_base_model_name]
  rw [hdata, key]
  apply String.ext
  simp [String.data_append]

/-- Witness for the amended C8 at `AppsV1beta1Deployment =
"Apps" ++ "V1beta1" ++ "Deployment"`. -/
theorem get_base_model_name_amended_witness :
    get_base_model_name ("Apps" ++ "V1beta1" ++ "Deployment") =
      "Apps" ++ "Deployment" :=
  get_base_model_name_amended "Apps" "V1beta1" "Deployment"
    (by decide) (by decide) (by decide)

/-- Witness for C4 at a concrete call. -/
theorem update_object_silent_noop_witness :
    update_object "name" (some "ns") Value.vnull = .ok none ∧
      update_object "name" (some "ns") Value.vnull ≠
        .error PyExc.notImplementedError :=
  update_object_silent_noop "name" (some "ns") Value.vnull

end OpenShiftHelper

